import Mathlib

/-!
Shallow embedding of the triage and routing core of the maternal-companion
application (`app.py`): rule-based triage (`triage_assess`), the manual
priority override (`apply_triage`), the geodesic-distance primitive
(`pairwise_distance`), and the greedy multi-vehicle route scheduler
(`greedy_assign_routes`) with blocked-edge penalties.

Numeric values (coordinates, temperatures, distances, capacities) are
modelled as rationals; Python `int()` truncation and `round(x, 2)` are
modelled explicitly.  Python's `set` of unserved mother ids is modelled as a
duplicate-free list (its iteration order is irrelevant: the scheduler only
tests membership and discards, and the final output is sorted).  The
third-party geodesic distance function is not part of the repository, so
the scheduler is parametrised by a distance oracle `pd`; the
failure-semantics variant (`greedy_assign_routesE`) threads the distance
errors of the oracle through the whole computation, mirroring the absence
of any exception handling in `greedy_assign_routes`.
-/

/-- Lowercasing (`str(...).lower()` in the source), written structurally on
the character list. -/
def strLower (s : String) : String :=
  String.mk (s.data.map Char.toLower)

/-- Lexicographic comparison of character lists by Unicode code point,
Python's string order. -/
def strLeAux : List Char → List Char → Bool
  | [], _ => true
  | _ :: _, [] => false
  | a :: as, b :: bs =>
    if a.toNat < b.toNat then true
    else if b.toNat < a.toNat then false
    else strLeAux as bs

/-- Python's `<=` on strings: lexicographic by code point. -/
def strLe (s t : String) : Bool :=
  strLeAux s.data t.data

/-- The emergency flag subset (`EMERGENCY_FLAGS` in `app.py`, line 36). -/
def EMERGENCY_FLAGS : List String :=
  ["PPH", "FEVER_HIGH", "PREECLAMPSIA", "SEPSIS", "NB_FEED_ISSUE"]

/-- One row of the mothers table, with the clinical-signal columns read by
`triage_assess` and the manual `priority` override column. -/
structure MotherRow where
  id : String
  bleeding : String
  temp_c : ℚ
  headache : Bool
  vision_blur : Bool
  baby_feeding : String
  priority : String
deriving DecidableEq

/-- The dictionary returned by `triage_assess`. -/
structure TriageResult where
  risk : String
  flags : List String
  sla_hours : ℤ
deriving DecidableEq

/-- The flag list built by the four independent rules of `triage_assess`
(lines 40..53 of `app.py`), in the order the code appends them. -/
def triage_flags (row : MotherRow) : List String :=
  (if strLower row.bleeding = "heavy" then ["PPH"] else []) ++
  (if (38 : ℚ) ≤ row.temp_c then ["FEVER_HIGH"] else []) ++
  (if row.headache && row.vision_blur then ["PREECLAMPSIA"] else []) ++
  (if strLower row.baby_feeding = "no" then ["NB_FEED_ISSUE"] else [])

/-- `triage_assess` (lines 39..59 of `app.py`): tier decision over the
triggered flags. -/
def triage_assess (row : MotherRow) : TriageResult :=
  let flags := triage_flags row
  if ∃ f ∈ flags, f ∈ EMERGENCY_FLAGS then ⟨"EMERGENCY", flags, 4⟩
  else if flags ≠ [] then ⟨"PRIORITY", flags, 24⟩
  else ⟨"ROUTINE", flags, 72⟩

/-- The final dispatch priority (the `np.where` of `apply_triage`, lines
74..76): the automatic risk tier when the override column is the sentinel
`"auto"`, otherwise the override string verbatim. -/
def priority_final (row : MotherRow) : String :=
  if row.priority = "auto" then (triage_assess row).risk else row.priority

/-- One output row of `apply_triage`: the input row plus the `risk`,
`flags`, `sla_hours` and `priority_final` columns. -/
structure TriagedRow where
  row : MotherRow
  risk : String
  flags : String
  sla_hours : ℤ
  pfinal : String
deriving DecidableEq

/-- `apply_triage` (lines 62..77 of `app.py`): per-row triage plus the
manual-override resolution. -/
def apply_triage (df : List MotherRow) : List TriagedRow :=
  df.map (fun r =>
    let t := triage_assess r
    ⟨r, t.risk, String.intercalate "," t.flags, t.sla_hours, priority_final r⟩)

/-- A mother record as projected by the scheduler
(`mothers_df[["id", "lat", "lng", "priority_final"]]`, line 110). -/
structure Mother where
  id : String
  lat : ℚ
  lng : ℚ
  pfinal : String
deriving DecidableEq

/-- A CHW record with the columns read by the scheduler. -/
structure CHW where
  id : String
  name : String
  base_lat : ℚ
  base_lng : ℚ
  max_visits_day : ℚ
deriving DecidableEq

/-- One element of the `routes` list returned by `greedy_assign_routes`. -/
structure RouteRec where
  vehicle_id : String
  chw_name : String
  sequence : List String
  km : ℚ
  capacity : ℤ
deriving DecidableEq

/-- The plan dictionary returned by `greedy_assign_routes`. -/
structure RoutePlan where
  routes : List RouteRec
  unserved : List String
deriving DecidableEq

instance : DecidableEq (Except String RoutePlan) := fun a b =>
  match a, b with
  | Except.ok x, Except.ok y =>
    if h : x = y then isTrue (by rw [h])
    else isFalse (fun hc => h (by injection hc))
  | Except.ok _, Except.error _ => isFalse (fun hc => Except.noConfusion hc)
  | Except.error _, Except.ok _ => isFalse (fun hc => Except.noConfusion hc)
  | Except.error e, Except.error f =>
    if h : e = f then isTrue (by rw [h])
    else isFalse (fun hc => h (by injection hc))

/-- Python `int()` truncation toward zero, applied to a rational. -/
def intTrunc (q : ℚ) : ℤ :=
  q.num.tdiv q.den

/-- Model of Python `round(x, 2)`: rounding to two decimal places (floor of
`100 x + 1/2`; no claim depends on the tie-breaking behaviour at exact
half-cent values). -/
def round2 (q : ℚ) : ℚ :=
  (((q * 100 + 1 / 2).num.fdiv (q * 100 + 1 / 2).den : ℤ) : ℚ) / 100

/-- The priority rank used for the sort key (`prio_rank`, line 118), with
`.get(..., 3)` default for unknown strings. -/
def prio_rank (p : String) : ℕ :=
  if p = "EMERGENCY" then 0
  else if p = "PRIORITY" then 1
  else if p = "ROUTINE" then 2
  else 3

/-- `sorted(mothers_list, key=lambda m: (prio_rank.get(..), -1))`; the
secondary key is constant, so this is exactly a stable sort by priority
rank.  Python's `sorted` is stable, and the output of a stable sort under a
total preorder is unique, so the stable `insertionSort` denotes it. -/
def sortMothers (mothers : List Mother) : List Mother :=
  List.insertionSort (fun a b => prio_rank a.pfinal ≤ prio_rank b.pfinal) mothers

/-- `tuple(sorted(e))` for a two-element edge (line 127). -/
def normEdge (e : String × String) : String × String :=
  if strLe e.1 e.2 then (e.1, e.2) else (e.2, e.1)

/-- `is_blocked` (lines 129..130): membership of the order-normalised pair
in the normalised blocked set. -/
def isBlocked (blk : List (String × String)) (a b : String) : Prop :=
  normEdge (a, b) ∈ blk

instance (blk : List (String × String)) (a b : String) :
    Decidable (isBlocked blk a b) := by
  unfold isBlocked; infer_instance

/-- The distance compared for one candidate (lines 146..149): the oracle
distance from the current position, plus the 1e6 penalty when the edge from
the current node to the candidate is blocked. -/
def candDist (blk : List (String × String)) (pd : ℚ × ℚ → ℚ × ℚ → ℚ)
    (curId : String) (curPos : ℚ × ℚ) (m : Mother) : ℚ :=
  let d := pd curPos (m.lat, m.lng)
  if isBlocked blk curId m.id then d + 1000000 else d

/-- The accumulator pass of the candidate-selection `for` loop (lines
143..152): keep the first candidate of strictly minimal compared
distance. -/
def selectBestAux (blk : List (String × String)) (pd : ℚ × ℚ → ℚ × ℚ → ℚ)
    (curId : String) (curPos : ℚ × ℚ) :
    List Mother → Option (Mother × ℚ) → Option (Mother × ℚ)
  | [], acc => acc
  | m :: rest, acc =>
    let d := candDist blk pd curId curPos m
    let acc2 := match acc with
      | none => some (m, d)
      | some (b, bd) => if d < bd then some (m, d) else some (b, bd)
    selectBestAux blk pd curId curPos rest acc2

/-- The candidate selection over the whole local unserved list. -/
def selectBest (blk : List (String × String)) (pd : ℚ × ℚ → ℚ × ℚ → ℚ)
    (curId : String) (curPos : ℚ × ℚ) (ms : List Mother) :
    Option (Mother × ℚ) :=
  selectBestAux blk pd curId curPos ms none

/-- `local_unserved` (lines 140 and 159): the priority-sorted mothers whose
id is still in the global unserved pool. -/
def localUnserved (allSorted : List Mother) (uns : List String) :
    List Mother :=
  allSorted.filter (fun m => decide (m.id ∈ uns))

/-- The `while cap > 0 and local_unserved` loop of one CHW (lines 141..160),
with the remaining capacity as structural fuel.  State: current node id and
position, global unserved pool, route sequence, cumulative distance. -/
def chwLoop (blk : List (String × String)) (pd : ℚ × ℚ → ℚ × ℚ → ℚ)
    (allSorted : List Mother) :
    ℕ → String → ℚ × ℚ → List String → List String → ℚ →
      List String × ℚ × List String
  | 0, _, _, uns, seq, dist => (seq, dist, uns)
  | k + 1, curId, curPos, uns, seq, dist =>
    let localUns := localUnserved allSorted uns
    if localUns.isEmpty then (seq, dist, uns)
    else
      match selectBest blk pd curId curPos localUns with
      | none => (seq, dist, uns)
      | some (best, bestD) =>
        if 100000 < bestD then (seq, dist, uns)
        else
          chwLoop blk pd allSorted k best.id (best.lat, best.lng)
            (uns.erase best.id) (seq ++ [best.id]) (dist + bestD)

/-- The body of the per-CHW `for` loop (lines 132..168): run the greedy walk
from the CHW's depot and emit the route record. -/
def runCHW (blk : List (String × String)) (pd : ℚ × ℚ → ℚ × ℚ → ℚ)
    (allSorted : List Mother) (chw : CHW) (uns : List String) :
    RouteRec × List String :=
  let res := chwLoop blk pd allSorted (intTrunc chw.max_visits_day).toNat
    "DEPOT" (chw.base_lat, chw.base_lng) uns ["DEPOT"] 0
  (⟨chw.id, chw.name, res.1, round2 res.2.1, intTrunc chw.max_visits_day⟩,
    res.2.2)

/-- The per-CHW loop over the whole fleet, threading the global unserved
pool in CHW input order. -/
def runCHWs (blk : List (String × String)) (pd : ℚ × ℚ → ℚ × ℚ → ℚ)
    (allSorted : List Mother) :
    List CHW → List String → List RouteRec × List String
  | [], uns => ([], uns)
  | chw :: rest, uns =>
    let r := runCHW blk pd allSorted chw uns
    let rs := runCHWs blk pd allSorted rest r.2
    (r.1 :: rs.1, rs.2)

/-- `greedy_assign_routes` (lines 101..170 of `app.py`), parametrised by the
distance oracle `pd`.  The `capacity_per_chw` parameter is declared exactly
as in the source signature; the source body never reads it. -/
def greedy_assign_routes (pd : ℚ × ℚ → ℚ × ℚ → ℚ) (mothers : List Mother)
    (chws : List CHW) (blocked_edges : List (String × String))
    (capacity_per_chw : ℚ) : RoutePlan :=
  let unserved0 := (mothers.map (fun m => m.id)).dedup
  let mothersSorted := sortMothers mothers
  let blocked := blocked_edges.map normEdge
  let res := runCHWs blocked pd mothersSorted chws unserved0
  ⟨res.1, List.insertionSort (fun a b => strLe a b = true) res.2⟩

/-- A latitude/longitude pair inside the valid ±90°/±180° ranges.  (For
rational coordinates non-finiteness has no counterpart.) -/
def validCoord (p : ℚ × ℚ) : Prop :=
  |p.1| ≤ 90 ∧ |p.2| ≤ 180

instance (p : ℚ × ℚ) : Decidable (validCoord p) := by
  unfold validCoord; infer_instance

/-- Modelled from the spec: `pairwise_distance` (lines 84..86) delegates to
the third-party geodesic library, which is absent from the sources.  Per the
spec it is a great-circle distance that "fails with an error if either
coordinate is outside valid latitude/longitude range (±90°/±180°) or
non-finite"; the great-circle computation itself is the abstract oracle
`gd`, guarded by the range check. -/
def pairwise_distance (gd : ℚ × ℚ → ℚ × ℚ → ℚ) (a b : ℚ × ℚ) :
    Except String ℚ :=
  if validCoord a ∧ validCoord b then Except.ok (gd a b)
  else Except.error "GeometryError: invalid coordinates"

/-- The candidate-selection `for` loop with the fallible distance primitive:
the first distance error raised inside the loop aborts it, as an uncaught
exception does in the source. -/
def selectBestAuxE (gd : ℚ × ℚ → ℚ × ℚ → ℚ) (blk : List (String × String))
    (curId : String) (curPos : ℚ × ℚ) :
    List Mother → Option (Mother × ℚ) → Except String (Option (Mother × ℚ))
  | [], acc => Except.ok acc
  | m :: rest, acc =>
    match pairwise_distance gd curPos (m.lat, m.lng) with
    | Except.error e => Except.error e
    | Except.ok d0 =>
      let d := if isBlocked blk curId m.id then d0 + 1000000 else d0
      let acc2 := match acc with
        | none => some (m, d)
        | some (b, bd) => if d < bd then some (m, d) else some (b, bd)
      selectBestAuxE gd blk curId curPos rest acc2

/-- The per-CHW `while` loop with the fallible distance primitive. -/
def chwLoopE (gd : ℚ × ℚ → ℚ × ℚ → ℚ) (blk : List (String × String))
    (allSorted : List Mother) :
    ℕ → String → ℚ × ℚ → List String → List String → ℚ →
      Except String (List String × ℚ × List String)
  | 0, _, _, uns, seq, dist => Except.ok (seq, dist, uns)
  | k + 1, curId, curPos, uns, seq, dist =>
    let localUns := localUnserved allSorted uns
    if localUns.isEmpty then Except.ok (seq, dist, uns)
    else
      match selectBestAuxE gd blk curId curPos localUns none with
      | Except.error e => Except.error e
      | Except.ok none => Except.ok (seq, dist, uns)
      | Except.ok (some (best, bestD)) =>
        if 100000 < bestD then Except.ok (seq, dist, uns)
        else
          chwLoopE gd blk allSorted k best.id (best.lat, best.lng)
            (uns.erase best.id) (seq ++ [best.id]) (dist + bestD)

/-- The per-CHW body with the fallible distance primitive. -/
def runCHWE (gd : ℚ × ℚ → ℚ × ℚ → ℚ) (blk : List (String × String))
    (allSorted : List Mother) (chw : CHW) (uns : List String) :
    Except String (RouteRec × List String) :=
  match chwLoopE gd blk allSorted (intTrunc chw.max_visits_day).toNat
      "DEPOT" (chw.base_lat, chw.base_lng) uns ["DEPOT"] 0 with
  | Except.error e => Except.error e
  | Except.ok res =>
    Except.ok
      (⟨chw.id, chw.name, res.1, round2 res.2.1, intTrunc chw.max_visits_day⟩,
        res.2.2)

/-- The fleet loop with the fallible distance primitive. -/
def runCHWsE (gd : ℚ × ℚ → ℚ × ℚ → ℚ) (blk : List (String × String))
    (allSorted : List Mother) :
    List CHW → List String → Except String (List RouteRec × List String)
  | [], uns => Except.ok ([], uns)
  | chw :: rest, uns =>
    match runCHWE gd blk allSorted chw uns with
    | Except.error e => Except.error e
    | Except.ok r =>
      match runCHWsE gd blk allSorted rest r.2 with
      | Except.error e => Except.error e
      | Except.ok rs => Except.ok (r.1 :: rs.1, rs.2)

/-- `greedy_assign_routes` with the failure semantics of the distance
primitive: the source installs no exception handler, so a distance error
anywhere aborts the whole planning call with no partial plan. -/
def greedy_assign_routesE (gd : ℚ × ℚ → ℚ × ℚ → ℚ) (mothers : List Mother)
    (chws : List CHW) (blocked_edges : List (String × String))
    (capacity_per_chw : ℚ) : Except String RoutePlan :=
  let unserved0 := (mothers.map (fun m => m.id)).dedup
  let mothersSorted := sortMothers mothers
  let blocked := blocked_edges.map normEdge
  match runCHWsE gd blocked mothersSorted chws unserved0 with
  | Except.error e => Except.error e
  | Except.ok res =>
    Except.ok ⟨res.1, List.insertionSort (fun a b => strLe a b = true) res.2⟩

/-- The sum of compared (possibly penalised) distances along a visit path
starting at the given node. -/
def chainSum (blk : List (String × String)) (pd : ℚ × ℚ → ℚ × ℚ → ℚ) :
    String → ℚ × ℚ → List Mother → ℚ
  | _, _, [] => 0
  | curId, curPos, m :: rest =>
    candDist blk pd curId curPos m +
      chainSum blk pd m.id (m.lat, m.lng) rest

/-- The route record `greedy_assign_routes` emits for one CHW whose greedy
walk visited `path` in order: depot-prefixed sequence, rounded cumulative
(compared) distance, and the CHW's own truncated capacity. -/
def routeOf (blk : List (String × String)) (pd : ℚ × ℚ → ℚ × ℚ → ℚ)
    (chw : CHW) (path : List Mother) : RouteRec :=
  ⟨chw.id, chw.name, "DEPOT" :: path.map (fun m => m.id),
    round2 (chainSum blk pd "DEPOT" (chw.base_lat, chw.base_lng) path),
    intTrunc chw.max_visits_day⟩

/-- Every appended leg of a greedy walk passed the reachability test. -/
def chainOk (blk : List (String × String)) (pd : ℚ × ℚ → ℚ × ℚ → ℚ) :
    String → ℚ × ℚ → List Mother → Prop
  | _, _, [] => True
  | curId, curPos, m :: rest =>
    candDist blk pd curId curPos m ≤ 100000 ∧
      chainOk blk pd m.id (m.lat, m.lng) rest

/-- The sum of raw (unpenalised) oracle distances along a visit path. -/
def legSum (pd : ℚ × ℚ → ℚ × ℚ → ℚ) : ℚ × ℚ → List Mother → ℚ
  | _, [] => 0
  | curPos, m :: rest => pd curPos (m.lat, m.lng) + legSum pd (m.lat, m.lng) rest

/-- No consecutive edge of a visit path is blocked. -/
def chainUnblocked (blk : List (String × String)) :
    String → List Mother → Prop
  | _, [] => True
  | curId, m :: rest => ¬ isBlocked blk curId m.id ∧ chainUnblocked blk m.id rest

/-- Iterated `set.discard`: the unserved pool after removing the listed ids
in order. -/
def eraseIds (uns : List String) (ids : List String) : List String :=
  ids.foldl (fun u i => u.erase i) uns

/-- All mother ids visited across a list of per-CHW visit paths, in route
order. -/
def joinedIds (pathss : List (List Mother)) : List String :=
  (pathss.map (fun p => p.map (fun m => m.id))).flatten

/-! ## Triage lemmas -/

theorem triage_assess_flags (row : MotherRow) :
    (triage_assess row).flags = triage_flags row := by
  simp only [triage_assess]
  split_ifs <;> rfl

theorem triage_flags_emergency (row : MotherRow) :
    ∀ f ∈ triage_flags row, f ∈ EMERGENCY_FLAGS := by
  intro f hf
  unfold triage_flags at hf
  split_ifs at hf <;> simp_all [EMERGENCY_FLAGS] <;> tauto

theorem triage_assess_cases (row : MotherRow) :
    triage_assess row = ⟨"EMERGENCY", triage_flags row, 4⟩ ∨
      triage_assess row = ⟨"ROUTINE", [], 72⟩ := by
  by_cases hE : ∃ f ∈ triage_flags row, f ∈ EMERGENCY_FLAGS
  · left
    unfold triage_assess
    simp [hE]
  · right
    have hnil : triage_flags row = [] := by
      by_contra hne
      obtain ⟨f, hf⟩ := List.exists_mem_of_ne_nil _ hne
      exact hE ⟨f, hf, triage_flags_emergency row f hf⟩
    unfold triage_assess
    simp [hE, hnil]

theorem mem_triage_flags_pph (row : MotherRow) :
    "PPH" ∈ triage_flags row ↔ strLower row.bleeding = "heavy" := by
  unfold triage_flags
  split_ifs <;> simp_all

theorem mem_triage_flags_fever (row : MotherRow) :
    "FEVER_HIGH" ∈ triage_flags row ↔ (38 : ℚ) ≤ row.temp_c := by
  unfold triage_flags
  split_ifs <;> simp_all

theorem mem_triage_flags_preeclampsia (row : MotherRow) :
    "PREECLAMPSIA" ∈ triage_flags row ↔
      (row.headache = true ∧ row.vision_blur = true) := by
  unfold triage_flags
  split_ifs <;> simp_all

theorem mem_triage_flags_feed (row : MotherRow) :
    "NB_FEED_ISSUE" ∈ triage_flags row ↔ strLower row.baby_feeding = "no" := by
  unfold triage_flags
  split_ifs <;> simp_all

/-- C1: for every mother record, the triage assessment triggers PPH exactly
for heavy bleeding, FEVER_HIGH exactly for temperature >= 38.0,
PREECLAMPSIA exactly for headache and vision blur both true, NB_FEED_ISSUE
exactly for feeding not ok, and returns risk EMERGENCY with sla_hours 4 if
any triggered flag belongs to the emergency subset, else PRIORITY with
sla_hours 24 if the flag set is non-empty, else ROUTINE with sla_hours
72. -/
theorem claim_C1_triage_tier_decision (row : MotherRow) :
    ("PPH" ∈ (triage_assess row).flags ↔ strLower row.bleeding = "heavy") ∧
    ("FEVER_HIGH" ∈ (triage_assess row).flags ↔ (38 : ℚ) ≤ row.temp_c) ∧
    ("PREECLAMPSIA" ∈ (triage_assess row).flags ↔
      (row.headache = true ∧ row.vision_blur = true)) ∧
    ("NB_FEED_ISSUE" ∈ (triage_assess row).flags ↔
      strLower row.baby_feeding = "no") ∧
    (((triage_assess row).risk, (triage_assess row).sla_hours) =
      if ∃ f ∈ (triage_assess row).flags, f ∈ EMERGENCY_FLAGS then
        ("EMERGENCY", (4 : ℤ))
      else if (triage_assess row).flags ≠ [] then ("PRIORITY", 24)
      else ("ROUTINE", 72)) := by
  rw [triage_assess_flags]
  refine ⟨mem_triage_flags_pph row, mem_triage_flags_fever row,
    mem_triage_flags_preeclampsia row, mem_triage_flags_feed row, ?_⟩
  by_cases hE : ∃ f ∈ triage_flags row, f ∈ EMERGENCY_FLAGS
  · simp [triage_assess, hE]
  · by_cases hne : triage_flags row = []
    · simp [triage_assess, hE, hne]
    · simp [triage_assess, hE, hne]

/-- C9: for every mother record the triage assessment never returns risk
PRIORITY — the risk is always EMERGENCY or ROUTINE and sla_hours is always
4 or 72 — and the final dispatch priority is the string PRIORITY exactly
when the manual override column is the string PRIORITY. -/
theorem claim_C9_no_priority_tier (row : MotherRow) :
    ((triage_assess row).risk = "EMERGENCY" ∨
      (triage_assess row).risk = "ROUTINE") ∧
    ((triage_assess row).sla_hours = 4 ∨ (triage_assess row).sla_hours = 72) ∧
    (priority_final row = "PRIORITY" ↔ row.priority = "PRIORITY") := by
  have hcases := triage_assess_cases row
  refine ⟨?_, ?_, ?_⟩
  · rcases hcases with h | h <;> rw [h] <;> simp
  · rcases hcases with h | h <;> rw [h] <;> simp
  · unfold priority_final
    by_cases hp : row.priority = "auto"
    · rw [if_pos hp, hp]
      constructor
      · intro hrisk
        exfalso
        rcases hcases with h | h <;> rw [h] at hrisk <;> simp at hrisk
      · intro h
        simp at h
    · rw [if_neg hp]

/-- C6: for every mother record produced by apply_triage, priority_final
equals the automatic risk tier when the manual override field is the
sentinel "auto", and otherwise equals the override value verbatim — no
validation, any override string flows through unchanged. -/
theorem claim_C6_override_verbatim (df : List MotherRow) (tr : TriagedRow)
    (htr : tr ∈ apply_triage df) :
    (tr.row.priority = "auto" → tr.pfinal = tr.risk) ∧
    (tr.row.priority ≠ "auto" → tr.pfinal = tr.row.priority) := by
  unfold apply_triage at htr
  simp only [List.mem_map] at htr
  obtain ⟨r, _, rfl⟩ := htr
  constructor
  · intro h
    dsimp only at h ⊢
    simp [priority_final, h]
  · intro h
    dsimp only at h ⊢
    simp [priority_final, h]

/-- Witness for C6 at a concrete record whose override is the arbitrary
string "WHATEVER". -/
theorem claim_C6_override_verbatim_witness :
    ((⟨⟨"m1", "none", 36, false, false, "yes", "WHATEVER"⟩, "ROUTINE", "",
        72, "WHATEVER"⟩ : TriagedRow) ∈
      apply_triage [⟨"m1", "none", 36, false, false, "yes", "WHATEVER"⟩]) ∧
    (("WHATEVER" : String) ≠ "auto" → ("WHATEVER" : String) = "WHATEVER") := by
  have hmem : ((⟨⟨"m1", "none", 36, false, false, "yes", "WHATEVER"⟩, "ROUTINE",
      "", 72, "WHATEVER"⟩ : TriagedRow) ∈
        apply_triage [⟨"m1", "none", 36, false, false, "yes", "WHATEVER"⟩]) := by
    with_unfolding_all decide
  exact ⟨hmem,
    (claim_C6_override_verbatim
      [⟨"m1", "none", 36, false, false, "yes", "WHATEVER"⟩] _ hmem).2⟩

/-! ## Scheduler lemmas -/

theorem eraseIds_nil (uns : List String) : eraseIds uns [] = uns := rfl

theorem eraseIds_cons (uns : List String) (a : String) (ids : List String) :
    eraseIds uns (a :: ids) = eraseIds (uns.erase a) ids := rfl

theorem eraseIds_nodup (ids : List String) :
    ∀ uns : List String, uns.Nodup → (eraseIds uns ids).Nodup := by
  induction ids with
  | nil => intro uns h; exact h
  | cons a ids ih =>
    intro uns h
    rw [eraseIds_cons]
    exact ih _ (h.erase a)

theorem mem_eraseIds (ids : List String) :
    ∀ uns : List String, uns.Nodup → ∀ x : String,
      (x ∈ eraseIds uns ids ↔ x ∈ uns ∧ x ∉ ids) := by
  induction ids with
  | nil => intro uns _ x; simp [eraseIds_nil]
  | cons a ids ih =>
    intro uns h x
    rw [eraseIds_cons]
    rw [ih _ (h.erase a) x, h.mem_erase_iff]
    simp only [List.mem_cons]
    tauto

theorem mem_localUnserved (allSorted : List Mother) (uns : List String)
    (m : Mother) :
    m ∈ localUnserved allSorted uns ↔ m ∈ allSorted ∧ m.id ∈ uns := by
  unfold localUnserved
  rw [List.mem_filter]
  simp

theorem selectBestAux_cons_none (blk : List (String × String))
    (pd : ℚ × ℚ → ℚ × ℚ → ℚ) (curId : String) (curPos : ℚ × ℚ)
    (m : Mother) (rest : List Mother) :
    selectBestAux blk pd curId curPos (m :: rest) none =
      selectBestAux blk pd curId curPos rest
        (some (m, candDist blk pd curId curPos m)) := rfl

theorem selectBestAux_cons_some (blk : List (String × String))
    (pd : ℚ × ℚ → ℚ × ℚ → ℚ) (curId : String) (curPos : ℚ × ℚ)
    (m : Mother) (rest : List Mother) (b0 : Mother) (bd0 : ℚ) :
    selectBestAux blk pd curId curPos (m :: rest) (some (b0, bd0)) =
      selectBestAux blk pd curId curPos rest
        (if candDist blk pd curId curPos m < bd0
         then some (m, candDist blk pd curId curPos m)
         else some (b0, bd0)) := rfl

theorem selectBestAux_spec (blk : List (String × String))
    (pd : ℚ × ℚ → ℚ × ℚ → ℚ) (curId : String) (curPos : ℚ × ℚ) :
    ∀ (ms : List Mother) (acc : Option (Mother × ℚ)) (b : Mother) (bd : ℚ),
      selectBestAux blk pd curId curPos ms acc = some (b, bd) →
      acc = some (b, bd) ∨
        (b ∈ ms ∧ bd = candDist blk pd curId curPos b) := by
  intro ms
  induction ms with
  | nil =>
    intro acc b bd h
    exact Or.inl h
  | cons m rest ih =>
    intro acc b bd h
    cases acc with
    | none =>
      rw [selectBestAux_cons_none] at h
      rcases ih _ b bd h with hacc | ⟨hmem, hbd⟩
      · injection hacc with h1
        injection h1 with h2 h3
        subst h2; subst h3
        exact Or.inr ⟨List.mem_cons_self .., rfl⟩
      · exact Or.inr ⟨List.mem_cons_of_mem _ hmem, hbd⟩
    | some p =>
      obtain ⟨b0, bd0⟩ := p
      rw [selectBestAux_cons_some] at h
      rcases ih _ b bd h with hacc | ⟨hmem, hbd⟩
      · by_cases hlt : candDist blk pd curId curPos m < bd0
        · rw [if_pos hlt] at hacc
          injection hacc with h1
          injection h1 with h2 h3
          subst h2; subst h3
          exact Or.inr ⟨List.mem_cons_self .., rfl⟩
        · rw [if_neg hlt] at hacc
          exact Or.inl hacc
      · exact Or.inr ⟨List.mem_cons_of_mem _ hmem, hbd⟩

theorem selectBest_spec (blk : List (String × String))
    (pd : ℚ × ℚ → ℚ × ℚ → ℚ) (curId : String) (curPos : ℚ × ℚ)
    (ms : List Mother) (b : Mother) (bd : ℚ)
    (h : selectBest blk pd curId curPos ms = some (b, bd)) :
    b ∈ ms ∧ bd = candDist blk pd curId curPos b := by
  rcases selectBestAux_spec blk pd curId curPos ms none b bd h with hacc | hgood
  · exact absurd hacc (by simp)
  · exact hgood

theorem chainSum_nil (blk : List (String × String)) (pd : ℚ × ℚ → ℚ × ℚ → ℚ)
    (curId : String) (curPos : ℚ × ℚ) :
    chainSum blk pd curId curPos [] = 0 := rfl

theorem chainSum_cons (blk : List (String × String)) (pd : ℚ × ℚ → ℚ × ℚ → ℚ)
    (curId : String) (curPos : ℚ × ℚ) (m : Mother) (rest : List Mother) :
    chainSum blk pd curId curPos (m :: rest) =
      candDist blk pd curId curPos m +
        chainSum blk pd m.id (m.lat, m.lng) rest := rfl

theorem chwLoop_zero (blk : List (String × String)) (pd : ℚ × ℚ → ℚ × ℚ → ℚ)
    (allSorted : List Mother) (curId : String) (curPos : ℚ × ℚ)
    (uns seq : List String) (dist : ℚ) :
    chwLoop blk pd allSorted 0 curId curPos uns seq dist = (seq, dist, uns) := rfl

theorem chwLoop_succ (blk : List (String × String)) (pd : ℚ × ℚ → ℚ × ℚ → ℚ)
    (allSorted : List Mother) (k : ℕ) (curId : String) (curPos : ℚ × ℚ)
    (uns seq : List String) (dist : ℚ) :
    chwLoop blk pd allSorted (k + 1) curId curPos uns seq dist =
      (if (localUnserved allSorted uns).isEmpty then (seq, dist, uns)
       else
         match selectBest blk pd curId curPos (localUnserved allSorted uns) with
         | none => (seq, dist, uns)
         | some (best, bestD) =>
           if 100000 < bestD then (seq, dist, uns)
           else
             chwLoop blk pd allSorted k best.id (best.lat, best.lng)
               (uns.erase best.id) (seq ++ [best.id]) (dist + bestD)) := rfl

theorem chwLoop_spec (blk : List (String × String)) (pd : ℚ × ℚ → ℚ × ℚ → ℚ)
    (allSorted : List Mother) :
    ∀ (fuel : ℕ) (curId : String) (curPos : ℚ × ℚ) (uns seq : List String)
      (dist : ℚ), uns.Nodup →
    ∃ path : List Mother,
      chwLoop blk pd allSorted fuel curId curPos uns seq dist =
        (seq ++ path.map (fun m => m.id),
          dist + chainSum blk pd curId curPos path,
          eraseIds uns (path.map (fun m => m.id))) ∧
      chainOk blk pd curId curPos path ∧
      (path.map (fun m => m.id)).Nodup ∧
      (∀ x ∈ path.map (fun m => m.id), x ∈ uns) ∧
      path.length ≤ fuel := by
  intro fuel
  induction fuel with
  | zero =>
    intro curId curPos uns seq dist _
    refine ⟨[], ?_, trivial, List.nodup_nil, ?_, Nat.le_refl 0⟩
    · rw [chwLoop_zero]
      simp [chainSum, eraseIds_nil]
    · intro x hx
      exact absurd hx (List.not_mem_nil x)
  | succ k ih =>
    intro curId curPos uns seq dist hnd
    rw [chwLoop_succ]
    by_cases hemp : (localUnserved allSorted uns).isEmpty
    · rw [if_pos hemp]
      refine ⟨[], ?_, trivial, List.nodup_nil, ?_, Nat.zero_le _⟩
      · simp [chainSum, eraseIds_nil]
      · intro x hx
        exact absurd hx (List.not_mem_nil x)
    · rw [if_neg hemp]
      cases hsel : selectBest blk pd curId curPos (localUnserved allSorted uns) with
      | none =>
        refine ⟨[], ?_, trivial, List.nodup_nil, ?_, Nat.zero_le _⟩
        · simp [chainSum, eraseIds_nil]
        · intro x hx
          exact absurd hx (List.not_mem_nil x)
      | some p =>
        obtain ⟨best, bestD⟩ := p
        dsimp only
        obtain ⟨hbmem, hbd⟩ := selectBest_spec blk pd curId curPos _ best bestD hsel
        obtain ⟨-, hbuns⟩ := (mem_localUnserved allSorted uns best).mp hbmem
        by_cases hfar : 100000 < bestD
        · rw [if_pos hfar]
          refine ⟨[], ?_, trivial, List.nodup_nil, ?_, Nat.zero_le _⟩
          · simp [chainSum, eraseIds_nil]
          · intro x hx
            exact absurd hx (List.not_mem_nil x)
        · rw [if_neg hfar]
          obtain ⟨path, heq, hok, hpnd, hpsub, hplen⟩ :=
            ih best.id (best.lat, best.lng) (uns.erase best.id)
              (seq ++ [best.id]) (dist + bestD) (hnd.erase best.id)
          refine ⟨best :: path, ?_, ?_, ?_, ?_, ?_⟩
          · rw [heq]
            simp only [Prod.mk.injEq]
            refine ⟨?_, ?_, ?_⟩
            · simp [List.append_assoc]
            · rw [chainSum_cons, hbd]
              ring
            · rw [List.map_cons, eraseIds_cons]
          · exact ⟨by rw [← hbd]; exact le_of_not_lt hfar, hok⟩
          · rw [List.map_cons]
            refine List.nodup_cons.mpr ⟨?_, hpnd⟩
            intro hmem
            exact ((hnd.mem_erase_iff).mp (hpsub _ hmem)).1 rfl
          · rw [List.map_cons]
            intro x hx
            rcases List.mem_cons.mp hx with rfl | hx
            · exact hbuns
            · exact List.mem_of_mem_erase (hpsub _ hx)
          · exact Nat.succ_le_succ hplen

theorem eraseIds_append (uns : List String) (ids1 ids2 : List String) :
    eraseIds uns (ids1 ++ ids2) = eraseIds (eraseIds uns ids1) ids2 := by
  simp [eraseIds, List.foldl_append]

theorem joinedIds_nil : joinedIds [] = [] := rfl

theorem joinedIds_cons (p : List Mother) (pathss : List (List Mother)) :
    joinedIds (p :: pathss) =
      p.map (fun m => m.id) ++ joinedIds pathss := by
  simp [joinedIds]

theorem runCHW_spec (blk : List (String × String)) (pd : ℚ × ℚ → ℚ × ℚ → ℚ)
    (allSorted : List Mother) (chw : CHW) (uns : List String)
    (hnd : uns.Nodup) :
    ∃ path : List Mother,
      runCHW blk pd allSorted chw uns =
        (routeOf blk pd chw path, eraseIds uns (path.map (fun m => m.id))) ∧
      chainOk blk pd "DEPOT" (chw.base_lat, chw.base_lng) path ∧
      (path.map (fun m => m.id)).Nodup ∧
      (∀ x ∈ path.map (fun m => m.id), x ∈ uns) ∧
      path.length ≤ (intTrunc chw.max_visits_day).toNat := by
  obtain ⟨path, heq, hok, hnd2, hsub, hlen⟩ :=
    chwLoop_spec blk pd allSorted (intTrunc chw.max_visits_day).toNat "DEPOT"
      (chw.base_lat, chw.base_lng) uns ["DEPOT"] 0 hnd
  refine ⟨path, ?_, hok, hnd2, hsub, hlen⟩
  simp [runCHW, routeOf, heq]

theorem runCHWs_cons (blk : List (String × String)) (pd : ℚ × ℚ → ℚ × ℚ → ℚ)
    (allSorted : List Mother) (chw : CHW) (rest : List CHW)
    (uns : List String) :
    runCHWs blk pd allSorted (chw :: rest) uns =
      ((runCHW blk pd allSorted chw uns).1 ::
        (runCHWs blk pd allSorted rest (runCHW blk pd allSorted chw uns).2).1,
       (runCHWs blk pd allSorted rest (runCHW blk pd allSorted chw uns).2).2) :=
  rfl

theorem runCHWs_spec (blk : List (String × String)) (pd : ℚ × ℚ → ℚ × ℚ → ℚ)
    (allSorted : List Mother) :
    ∀ (chws : List CHW) (uns : List String), uns.Nodup →
    ∃ pathss : List (List Mother),
      pathss.length = chws.length ∧
      (runCHWs blk pd allSorted chws uns).1 =
        List.zipWith (routeOf blk pd) chws pathss ∧
      (runCHWs blk pd allSorted chws uns).2 =
        eraseIds uns (joinedIds pathss) ∧
      (joinedIds pathss).Nodup ∧
      (∀ x ∈ joinedIds pathss, x ∈ uns) ∧
      ∀ i (h1 : i < chws.length) (h2 : i < pathss.length),
        chainOk blk pd "DEPOT"
          ((chws.get ⟨i, h1⟩).base_lat, (chws.get ⟨i, h1⟩).base_lng)
          (pathss.get ⟨i, h2⟩) ∧
        (pathss.get ⟨i, h2⟩).length ≤
          (intTrunc (chws.get ⟨i, h1⟩).max_visits_day).toNat := by
  intro chws
  induction chws with
  | nil =>
    intro uns _
    refine ⟨[], rfl, rfl, ?_, List.nodup_nil, ?_, ?_⟩
    · rw [joinedIds_nil, eraseIds_nil]
      rfl
    · intro x hx
      rw [joinedIds_nil] at hx
      exact absurd hx (List.not_mem_nil x)
    · intro i h1 _
      exact absurd h1 (Nat.not_lt_zero i)
  | cons chw rest ih =>
    intro uns hnd
    obtain ⟨path0, heq0, hok0, hnd0, hsub0, hlen0⟩ :=
      runCHW_spec blk pd allSorted chw uns hnd
    have hnd1 : (eraseIds uns (path0.map (fun m => m.id))).Nodup :=
      eraseIds_nodup _ uns hnd
    obtain ⟨pathss, hplen, hroutes, huns, hjnd, hjsub, hidx⟩ :=
      ih (eraseIds uns (path0.map (fun m => m.id))) hnd1
    refine ⟨path0 :: pathss, ?_, ?_, ?_, ?_, ?_, ?_⟩
    · simp [hplen]
    · rw [runCHWs_cons, heq0]
      dsimp only
      rw [List.zipWith_cons_cons, hroutes]
    · rw [runCHWs_cons, heq0]
      dsimp only
      rw [huns, joinedIds_cons, eraseIds_append]
    · rw [joinedIds_cons, List.nodup_append]
      refine ⟨hnd0, hjnd, ?_⟩
      intro x hx hx2
      exact ((mem_eraseIds _ uns hnd x).mp (hjsub x hx2)).2 hx
    · rw [joinedIds_cons]
      intro x hx
      rcases List.mem_append.mp hx with hx | hx
      · exact hsub0 x hx
      · exact ((mem_eraseIds _ uns hnd x).mp (hjsub x hx)).1
    · intro i h1 h2
      cases i with
      | zero => exact ⟨hok0, hlen0⟩
      | succ j =>
        exact hidx j (Nat.lt_of_succ_lt_succ h1) (Nat.lt_of_succ_lt_succ h2)

theorem intTrunc_nonneg (q : ℚ) (h : 0 ≤ q) : 0 ≤ intTrunc q := by
  unfold intTrunc
  exact Int.tdiv_nonneg (Rat.num_nonneg.mpr h) (Int.ofNat_nonneg q.den)

theorem zipWith_const_right (f : List Mother → List String) :
    ∀ (as : List CHW) (bs : List (List Mother)), as.length = bs.length →
      List.zipWith (fun _ b => f b) as bs = bs.map f := by
  intro as
  induction as with
  | nil =>
    intro bs h
    cases bs with
    | nil => rfl
    | cons b bs => exact absurd h (by simp)
  | cons a as ih =>
    intro bs h
    cases bs with
    | nil => exact absurd h (by simp)
    | cons b bs =>
      rw [List.zipWith_cons_cons, List.map_cons, ih bs (by simpa using h)]

theorem greedy_def (pd : ℚ × ℚ → ℚ × ℚ → ℚ) (mothers : List Mother)
    (chws : List CHW) (blocked : List (String × String)) (cap : ℚ) :
    greedy_assign_routes pd mothers chws blocked cap =
      ⟨(runCHWs (blocked.map normEdge) pd (sortMothers mothers) chws
          ((mothers.map (fun m => m.id)).dedup)).1,
        List.insertionSort (fun a b => strLe a b = true)
          (runCHWs (blocked.map normEdge) pd (sortMothers mothers) chws
            ((mothers.map (fun m => m.id)).dedup)).2⟩ := rfl

theorem greedy_spec (pd : ℚ × ℚ → ℚ × ℚ → ℚ) (mothers : List Mother)
    (chws : List CHW) (blocked : List (String × String)) (cap : ℚ) :
    ∃ pathss : List (List Mother),
      pathss.length = chws.length ∧
      (greedy_assign_routes pd mothers chws blocked cap).routes =
        List.zipWith (routeOf (blocked.map normEdge) pd) chws pathss ∧
      (∀ x, x ∈ (greedy_assign_routes pd mothers chws blocked cap).unserved ↔
        x ∈ mothers.map (fun m => m.id) ∧ x ∉ joinedIds pathss) ∧
      (greedy_assign_routes pd mothers chws blocked cap).unserved.Nodup ∧
      (joinedIds pathss).Nodup ∧
      (∀ x ∈ joinedIds pathss, x ∈ mothers.map (fun m => m.id)) ∧
      ∀ i (h1 : i < chws.length) (h2 : i < pathss.length),
        chainOk (blocked.map normEdge) pd "DEPOT"
          ((chws.get ⟨i, h1⟩).base_lat, (chws.get ⟨i, h1⟩).base_lng)
          (pathss.get ⟨i, h2⟩) ∧
        (pathss.get ⟨i, h2⟩).length ≤
          (intTrunc (chws.get ⟨i, h1⟩).max_visits_day).toNat := by
  have hnd0 : ((mothers.map (fun m => m.id)).dedup).Nodup := List.nodup_dedup _
  obtain ⟨pathss, hplen, hroutes, huns, hjnd, hjsub, hidx⟩ :=
    runCHWs_spec (blocked.map normEdge) pd (sortMothers mothers) chws
      ((mothers.map (fun m => m.id)).dedup) hnd0
  have hperm :
      (greedy_assign_routes pd mothers chws blocked cap).unserved.Perm
        (runCHWs (blocked.map normEdge) pd (sortMothers mothers) chws
          ((mothers.map (fun m => m.id)).dedup)).2 := by
    rw [greedy_def]
    exact List.perm_insertionSort _ _
  refine ⟨pathss, hplen, ?_, ?_, ?_, hjnd,
    fun x hx => List.mem_dedup.mp (hjsub x hx), hidx⟩
  · rw [greedy_def]
    exact hroutes
  · intro x
    rw [hperm.mem_iff, huns, mem_eraseIds _ _ hnd0 x, List.mem_dedup]
  · exact hperm.nodup_iff.mpr (huns ▸ eraseIds_nodup _ _ hnd0)

theorem routes_visited_eq (blk : List (String × String))
    (pd : ℚ × ℚ → ℚ × ℚ → ℚ) (chws : List CHW)
    (pathss : List (List Mother)) (hplen : pathss.length = chws.length) :
    ((List.zipWith (routeOf blk pd) chws pathss).map
        (fun r => r.sequence.drop 1)).flatten = joinedIds pathss := by
  rw [List.map_zipWith]
  have hfun : (fun (a : CHW) (b : List Mother) =>
      ((routeOf blk pd a b).sequence.drop 1)) =
      fun _ b => b.map (fun m => m.id) := rfl
  rw [hfun, zipWith_const_right (fun p => p.map (fun m => m.id)) chws pathss
    hplen.symm]
  rfl

/-- C2: for every input, the plan partitions the input mother ids: the
concatenation of all routes' visited-mother ids with the unserved list has
no duplicate, and its members are exactly the input mother ids — so no
mother id appears in two routes, twice in one route, or both in a route and
in the unserved set. -/
theorem claim_C2_partition (pd : ℚ × ℚ → ℚ × ℚ → ℚ) (mothers : List Mother)
    (chws : List CHW) (blocked : List (String × String)) (cap : ℚ) :
    ((((greedy_assign_routes pd mothers chws blocked cap).routes.map
        (fun r => r.sequence.drop 1)).flatten ++
      (greedy_assign_routes pd mothers chws blocked cap).unserved).Nodup) ∧
    ∀ x, (x ∈ ((greedy_assign_routes pd mothers chws blocked cap).routes.map
        (fun r => r.sequence.drop 1)).flatten ++
          (greedy_assign_routes pd mothers chws blocked cap).unserved ↔
      x ∈ mothers.map (fun m => m.id)) := by
  obtain ⟨pathss, hplen, hroutes, huns, hund, hjnd, hjsub, -⟩ :=
    greedy_spec pd mothers chws blocked cap
  have hvis : ((greedy_assign_routes pd mothers chws blocked cap).routes.map
      (fun r => r.sequence.drop 1)).flatten = joinedIds pathss := by
    rw [hroutes]
    exact routes_visited_eq _ pd chws pathss hplen
  constructor
  · rw [hvis, List.nodup_append]
    refine ⟨hjnd, hund, ?_⟩
    intro x hx hx2
    exact ((huns x).mp hx2).2 hx
  · intro x
    rw [hvis, List.mem_append, huns x]
    constructor
    · intro h
      rcases h with h | h
      · exact hjsub x h
      · exact h.1
    · intro h
      by_cases hJ : x ∈ joinedIds pathss
      · exact Or.inl hJ
      · exact Or.inr ⟨h, hJ⟩

theorem get_zipWith_routeOf (blk : List (String × String))
    (pd : ℚ × ℚ → ℚ × ℚ → ℚ) (chws : List CHW)
    (pathss : List (List Mother)) (rs : List RouteRec)
    (hrs : rs = List.zipWith (routeOf blk pd) chws pathss)
    (i : ℕ) (h1 : i < rs.length) (h2 : i < chws.length)
    (h3 : i < pathss.length) :
    rs.get ⟨i, h1⟩ = routeOf blk pd (chws.get ⟨i, h2⟩) (pathss.get ⟨i, h3⟩) := by
  subst hrs
  rw [List.get_eq_getElem, List.get_eq_getElem, List.get_eq_getElem,
    List.getElem_zipWith]

/-- C5: for every plan built from CHWs with non-negative declared
capacities, there is one route per CHW, each route's reported capacity is
the CHW's own truncated max-visits-per-day, and the number of visited
mothers (sequence length minus the depot) never exceeds that capacity. -/
theorem claim_C5_capacity_bound (pd : ℚ × ℚ → ℚ × ℚ → ℚ)
    (mothers : List Mother) (chws : List CHW)
    (blocked : List (String × String)) (cap : ℚ)
    (hpos : ∀ chw ∈ chws, 0 ≤ chw.max_visits_day) :
    (greedy_assign_routes pd mothers chws blocked cap).routes.length =
      chws.length ∧
    ∀ i (h1 : i <
        (greedy_assign_routes pd mothers chws blocked cap).routes.length)
      (h2 : i < chws.length),
      (((greedy_assign_routes pd mothers chws blocked cap).routes.get
          ⟨i, h1⟩).capacity =
        intTrunc (chws.get ⟨i, h2⟩).max_visits_day) ∧
      ((((greedy_assign_routes pd mothers chws blocked
          cap).routes.get ⟨i, h1⟩).sequence.length : ℤ) - 1 ≤
        ((greedy_assign_routes pd mothers chws blocked cap).routes.get
          ⟨i, h1⟩).capacity) := by
  obtain ⟨pathss, hplen, hroutes, -, -, -, -, hidx⟩ :=
    greedy_spec pd mothers chws blocked cap
  have hlen : (greedy_assign_routes pd mothers chws blocked
      cap).routes.length = chws.length := by
    rw [hroutes, List.length_zipWith, hplen, min_self]
  refine ⟨hlen, ?_⟩
  intro i h1 h2
  have h3 : i < pathss.length := hplen ▸ h2
  have hget := get_zipWith_routeOf (blocked.map normEdge) pd chws pathss _
    hroutes i h1 h2 h3
  obtain ⟨-, hblen⟩ := hidx i h2 h3
  have hcap0 : 0 ≤ intTrunc (chws.get ⟨i, h2⟩).max_visits_day :=
    intTrunc_nonneg _ (hpos _ (List.get_mem chws i h2))
  refine ⟨by rw [hget]; rfl, ?_⟩
  rw [hget]
  show (((("DEPOT" :: (pathss.get ⟨i, h3⟩).map (fun m => m.id)).length : ℤ))
    - 1 ≤ intTrunc (chws.get ⟨i, h2⟩).max_visits_day)
  rw [List.length_cons, List.length_map]
  have htn : ((intTrunc (chws.get ⟨i, h2⟩).max_visits_day).toNat : ℤ) =
      intTrunc (chws.get ⟨i, h2⟩).max_visits_day :=
    Int.toNat_of_nonneg hcap0
  omega

theorem legSum_nil (pd : ℚ × ℚ → ℚ × ℚ → ℚ) (curPos : ℚ × ℚ) :
    legSum pd curPos [] = 0 := rfl

theorem legSum_cons (pd : ℚ × ℚ → ℚ × ℚ → ℚ) (curPos : ℚ × ℚ) (m : Mother)
    (rest : List Mother) :
    legSum pd curPos (m :: rest) =
      pd curPos (m.lat, m.lng) + legSum pd (m.lat, m.lng) rest := rfl

theorem chainOk_unblocked (blk : List (String × String))
    (pd : ℚ × ℚ → ℚ × ℚ → ℚ) (hpd : ∀ a b : ℚ × ℚ, 0 ≤ pd a b) :
    ∀ (path : List Mother) (curId : String) (curPos : ℚ × ℚ),
      chainOk blk pd curId curPos path →
      chainUnblocked blk curId path ∧
      chainSum blk pd curId curPos path = legSum pd curPos path := by
  intro path
  induction path with
  | nil =>
    intro curId curPos _
    exact ⟨trivial, rfl⟩
  | cons m rest ih =>
    intro curId curPos hok
    obtain ⟨h1, h2⟩ := hok
    have hnb : ¬ isBlocked blk curId m.id := by
      intro hb
      have hcb : candDist blk pd curId curPos m =
          pd curPos (m.lat, m.lng) + 1000000 := by
        unfold candDist
        rw [if_pos hb]
      rw [hcb] at h1
      have := hpd curPos (m.lat, m.lng)
      linarith
    obtain ⟨hub, hsum⟩ := ih m.id (m.lat, m.lng) h2
    have hcd : candDist blk pd curId curPos m = pd curPos (m.lat, m.lng) := by
      unfold candDist
      rw [if_neg hnb]
    refine ⟨⟨hnb, hub⟩, ?_⟩
    rw [chainSum_cons, hcd, hsum, legSum_cons]

/-- C10: for every plan built with a non-negative distance oracle, each
route's sequence is a depot-prefixed visit path, no edge of the path is
blocked, and the route's km is the rounded sum of the raw (unpenalised)
oracle leg distances — the 1,000,000 km blocked-edge penalty never enters
a cumulative km, since a blocked minimum candidate always truncates the
route instead of being appended. -/
theorem claim_C10_km_unpenalized (pd : ℚ × ℚ → ℚ × ℚ → ℚ)
    (mothers : List Mother) (chws : List CHW)
    (blocked : List (String × String)) (cap : ℚ)
    (hpd : ∀ a b : ℚ × ℚ, 0 ≤ pd a b) :
    (greedy_assign_routes pd mothers chws blocked cap).routes.length =
      chws.length ∧
    ∀ i (h1 : i <
        (greedy_assign_routes pd mothers chws blocked cap).routes.length)
      (h2 : i < chws.length),
      ∃ path : List Mother,
        ((greedy_assign_routes pd mothers chws blocked cap).routes.get
          ⟨i, h1⟩).sequence = "DEPOT" :: path.map (fun m => m.id) ∧
        ((greedy_assign_routes pd mothers chws blocked cap).routes.get
          ⟨i, h1⟩).km =
          round2 (legSum pd
            ((chws.get ⟨i, h2⟩).base_lat, (chws.get ⟨i, h2⟩).base_lng) path) ∧
        chainUnblocked (blocked.map normEdge) "DEPOT" path := by
  obtain ⟨pathss, hplen, hroutes, -, -, -, -, hidx⟩ :=
    greedy_spec pd mothers chws blocked cap
  have hlen : (greedy_assign_routes pd mothers chws blocked
      cap).routes.length = chws.length := by
    rw [hroutes, List.length_zipWith, hplen, min_self]
  refine ⟨hlen, ?_⟩
  intro i h1 h2
  have h3 : i < pathss.length := hplen ▸ h2
  have hget := get_zipWith_routeOf (blocked.map normEdge) pd chws pathss _
    hroutes i h1 h2 h3
  obtain ⟨hok, -⟩ := hidx i h2 h3
  obtain ⟨hub, hsum⟩ :=
    chainOk_unblocked (blocked.map normEdge) pd hpd (pathss.get ⟨i, h3⟩)
      "DEPOT" ((chws.get ⟨i, h2⟩).base_lat, (chws.get ⟨i, h2⟩).base_lng) hok
  refine ⟨pathss.get ⟨i, h3⟩, ?_, ?_, hub⟩
  · rw [hget]
    rfl
  · rw [hget, ← hsum]
    rfl

/-- C4: a candidate whose edge from the current node is blocked has
1,000,000 km added to its distance before comparison; when the selected
minimum-distance candidate's compared distance exceeds 100,000 km the
CHW's loop stops with its state unchanged (no error is possible — the
scheduler is a total function), and every input mother visited by no route
is reported in the unserved output. -/
theorem claim_C4_blocked_penalty_truncation :
    (∀ (blk : List (String × String)) (pd : ℚ × ℚ → ℚ × ℚ → ℚ)
        (curId : String) (curPos : ℚ × ℚ) (m : Mother),
      candDist blk pd curId curPos m =
        pd curPos (m.lat, m.lng) +
          if isBlocked blk curId m.id then 1000000 else 0) ∧
    (∀ (blk : List (String × String)) (pd : ℚ × ℚ → ℚ × ℚ → ℚ)
        (allSorted : List Mother) (k : ℕ) (curId : String) (curPos : ℚ × ℚ)
        (uns seq : List String) (dist : ℚ) (best : Mother) (bestD : ℚ),
      selectBest blk pd curId curPos (localUnserved allSorted uns) =
        some (best, bestD) →
      100000 < bestD →
      chwLoop blk pd allSorted (k + 1) curId curPos uns seq dist =
        (seq, dist, uns)) ∧
    (∀ (pd : ℚ × ℚ → ℚ × ℚ → ℚ) (mothers : List Mother) (chws : List CHW)
        (blocked : List (String × String)) (cap : ℚ) (x : String),
      x ∈ mothers.map (fun m => m.id) →
      (∀ r ∈ (greedy_assign_routes pd mothers chws blocked cap).routes,
        x ∉ r.sequence.drop 1) →
      x ∈ (greedy_assign_routes pd mothers chws blocked cap).unserved) := by
  refine ⟨?_, ?_, ?_⟩
  · intro blk pd curId curPos m
    unfold candDist
    by_cases hb : isBlocked blk curId m.id
    · rw [if_pos hb, if_pos hb]
    · rw [if_neg hb, if_neg hb, add_zero]
  · intro blk pd allSorted k curId curPos uns seq dist best bestD hsel hfar
    rw [chwLoop_succ]
    have hne : (localUnserved allSorted uns).isEmpty = false := by
      cases hloc : localUnserved allSorted uns with
      | nil =>
        rw [hloc] at hsel
        exact absurd hsel (by simp [selectBest, selectBestAux])
      | cons a l => rfl
    rw [hne]
    simp only [Bool.false_eq_true, if_false, hsel, hfar, if_true]
  · intro pd mothers chws blocked cap x hx hnr
    obtain ⟨pathss, hplen, hroutes, huns, -, -, -, -⟩ :=
      greedy_spec pd mothers chws blocked cap
    have hvis : ((greedy_assign_routes pd mothers chws blocked
        cap).routes.map (fun r => r.sequence.drop 1)).flatten =
        joinedIds pathss := by
      rw [hroutes]
      exact routes_visited_eq _ pd chws pathss hplen
    refine (huns x).mpr ⟨hx, ?_⟩
    intro hJ
    rw [← hvis] at hJ
    rw [List.mem_flatten] at hJ
    obtain ⟨l, hl, hxl⟩ := hJ
    rw [List.mem_map] at hl
    obtain ⟨r, hr, rfl⟩ := hl
    exact hnr r hr hxl

/-- C3 (code defect): the scheduler's capacity-override parameter is never
read — the plan is literally invariant in it — and at a concrete input
where the override is 5 but the CHW's own max-visits-per-day is 0, the CHW
performs no visit and the mother stays unserved, contradicting a uniform
override. -/
theorem claim_C3_capacity_override_ignored :
    (∀ (pd : ℚ × ℚ → ℚ × ℚ → ℚ) (mothers : List Mother) (chws : List CHW)
        (blocked : List (String × String)) (c1 c2 : ℚ),
      greedy_assign_routes pd mothers chws blocked c1 =
        greedy_assign_routes pd mothers chws blocked c2) ∧
    (greedy_assign_routes (fun _ _ => 0) [⟨"m1", 0, 0, "ROUTINE"⟩]
        [⟨"c1", "Ana", 0, 0, 0⟩] [] 5 =
      ⟨[⟨"c1", "Ana", ["DEPOT"], 0, 0⟩], ["m1"]⟩) := by
  constructor
  · intro pd mothers chws blocked c1 c2
    rfl
  · with_unfolding_all rfl

/-- Witness for C5 at a concrete one-mother, one-CHW input. -/
theorem claim_C5_capacity_bound_witness :
    ((greedy_assign_routes (fun _ _ => 0) [⟨"m1", 0, 0, "ROUTINE"⟩]
        [⟨"c1", "Ana", 0, 0, 2⟩] [] 6).routes.length =
      ([⟨"c1", "Ana", 0, 0, 2⟩] : List CHW).length) ∧
    (∀ i (h1 : i < (greedy_assign_routes (fun _ _ => 0)
          [⟨"m1", 0, 0, "ROUTINE"⟩]
          [⟨"c1", "Ana", 0, 0, 2⟩] [] 6).routes.length)
      (h2 : i < ([⟨"c1", "Ana", 0, 0, 2⟩] : List CHW).length),
      (((greedy_assign_routes (fun _ _ => 0) [⟨"m1", 0, 0, "ROUTINE"⟩]
          [⟨"c1", "Ana", 0, 0, 2⟩] [] 6).routes.get ⟨i, h1⟩).capacity =
        intTrunc (([⟨"c1", "Ana", 0, 0, 2⟩] : List CHW).get
          ⟨i, h2⟩).max_visits_day) ∧
      ((((greedy_assign_routes (fun _ _ => 0) [⟨"m1", 0, 0, "ROUTINE"⟩]
          [⟨"c1", "Ana", 0, 0, 2⟩] [] 6).routes.get
            ⟨i, h1⟩).sequence.length : ℤ) - 1 ≤
        ((greedy_assign_routes (fun _ _ => 0) [⟨"m1", 0, 0, "ROUTINE"⟩]
          [⟨"c1", "Ana", 0, 0, 2⟩] [] 6).routes.get ⟨i, h1⟩).capacity)) :=
  claim_C5_capacity_bound (fun _ _ => 0) [⟨"m1", 0, 0, "ROUTINE"⟩]
    [⟨"c1", "Ana", 0, 0, 2⟩] [] 6
    (by
      intro chw hchw
      rw [List.mem_singleton] at hchw
      subst hchw
      norm_num)

/-- Witness for C10 at a concrete input with the zero oracle. -/
theorem claim_C10_km_unpenalized_witness :
    ((greedy_assign_routes (fun _ _ => 0) [⟨"m1", 0, 0, "ROUTINE"⟩]
        [⟨"c1", "Ana", 0, 0, 1⟩] [] 6).routes.length =
      ([⟨"c1", "Ana", 0, 0, 1⟩] : List CHW).length) ∧
    (∀ i (h1 : i < (greedy_assign_routes (fun _ _ => 0)
          [⟨"m1", 0, 0, "ROUTINE"⟩]
          [⟨"c1", "Ana", 0, 0, 1⟩] [] 6).routes.length)
      (h2 : i < ([⟨"c1", "Ana", 0, 0, 1⟩] : List CHW).length),
      ∃ path : List Mother,
        (((greedy_assign_routes (fun _ _ => 0) [⟨"m1", 0, 0, "ROUTINE"⟩]
          [⟨"c1", "Ana", 0, 0, 1⟩] [] 6).routes.get ⟨i, h1⟩).sequence =
          "DEPOT" :: path.map (fun m => m.id)) ∧
        (((greedy_assign_routes (fun _ _ => 0) [⟨"m1", 0, 0, "ROUTINE"⟩]
          [⟨"c1", "Ana", 0, 0, 1⟩] [] 6).routes.get ⟨i, h1⟩).km =
          round2 (legSum (fun _ _ => 0)
            ((([⟨"c1", "Ana", 0, 0, 1⟩] : List CHW).get ⟨i, h2⟩).base_lat,
             (([⟨"c1", "Ana", 0, 0, 1⟩] : List CHW).get ⟨i, h2⟩).base_lng)
            path)) ∧
        chainUnblocked (([] : List (String × String)).map normEdge)
          "DEPOT" path) :=
  claim_C10_km_unpenalized (fun _ _ => 0) [⟨"m1", 0, 0, "ROUTINE"⟩]
    [⟨"c1", "Ana", 0, 0, 1⟩] [] 6 (fun _ _ => le_refl 0)

/-- Witness for C4: the penalty equation, the truncation of a CHW loop when
the only candidate is blocked, and the blocked mother's id appearing in the
unserved output, all at concrete inputs. -/
theorem claim_C4_blocked_penalty_truncation_witness :
    (candDist [("DEPOT", "m1")] (fun _ _ => 0) "DEPOT" (0, 0)
        ⟨"m1", 0, 0, "ROUTINE"⟩ =
      (fun _ _ => (0 : ℚ)) ((0 : ℚ), (0 : ℚ)) ((0 : ℚ), (0 : ℚ)) +
        if isBlocked [("DEPOT", "m1")] "DEPOT" "m1" then 1000000 else 0) ∧
    (chwLoop [("DEPOT", "m1")] (fun _ _ => 0) [⟨"m1", 0, 0, "ROUTINE"⟩]
        (0 + 1) "DEPOT" (0, 0) ["m1"] ["DEPOT"] 0 =
      (["DEPOT"], 0, ["m1"])) ∧
    ("m1" ∈ (greedy_assign_routes (fun _ _ => 0) [⟨"m1", 0, 0, "ROUTINE"⟩]
        [⟨"c1", "Ana", 0, 0, 2⟩] [("DEPOT", "m1")] 6).unserved) := by
  refine ⟨?_, ?_, ?_⟩
  · exact claim_C4_blocked_penalty_truncation.1 [("DEPOT", "m1")]
      (fun _ _ => 0) "DEPOT" (0, 0) ⟨"m1", 0, 0, "ROUTINE"⟩
  · exact claim_C4_blocked_penalty_truncation.2.1 [("DEPOT", "m1")]
      (fun _ _ => 0) [⟨"m1", 0, 0, "ROUTINE"⟩] 0 "DEPOT" (0, 0) ["m1"]
      ["DEPOT"] 0 ⟨"m1", 0, 0, "ROUTINE"⟩ 1000000
      (by with_unfolding_all rfl) (by norm_num)
  · exact claim_C4_blocked_penalty_truncation.2.2 (fun _ _ => 0)
      [⟨"m1", 0, 0, "ROUTINE"⟩] [⟨"c1", "Ana", 0, 0, 2⟩]
      [("DEPOT", "m1")] 6 "m1" (by simp)
      (by with_unfolding_all decide)

/-- Counterexample to C7 as stated: a fleet containing a CHW with negative
declared capacity (-3) and one with non-integer capacity (5/2) is not
rejected — planning completes and returns a full plan, with the negative
capacity passed through and the non-integer capacity silently truncated to
2 by `int()`. -/
theorem claim_C7_counterexample :
    greedy_assign_routesE (fun _ _ => 0) [⟨"m1", 0, 0, "ROUTINE"⟩]
        [⟨"c1", "Ana", 0, 0, -3⟩, ⟨"c2", "Bo", 0, 0, 5 / 2⟩] [] 6 =
      Except.ok ⟨[⟨"c1", "Ana", ["DEPOT"], 0, -3⟩,
        ⟨"c2", "Bo", ["DEPOT", "m1"], 0, 2⟩], []⟩ := by
  with_unfolding_all rfl

/-- C7 as amended: the scheduler performs no capacity validation and raises
no configuration error. A route's reported capacity is always `int()` of
the CHW's max-visits-per-day (truncating non-integers toward zero), and a
CHW whose truncated capacity is zero or negative contributes a depot-only
route with zero distance while planning continues normally. -/
theorem claim_C7_amended (pd : ℚ × ℚ → ℚ × ℚ → ℚ) (mothers : List Mother)
    (chws : List CHW) (blocked : List (String × String)) (cap : ℚ) (i : ℕ)
    (h1 : i < (greedy_assign_routes pd mothers chws blocked
      cap).routes.length)
    (h2 : i < chws.length) :
    (((greedy_assign_routes pd mothers chws blocked cap).routes.get
        ⟨i, h1⟩).capacity = intTrunc (chws.get ⟨i, h2⟩).max_visits_day) ∧
    (intTrunc (chws.get ⟨i, h2⟩).max_visits_day ≤ 0 →
      ((greedy_assign_routes pd mothers chws blocked cap).routes.get
        ⟨i, h1⟩).sequence = ["DEPOT"] ∧
      ((greedy_assign_routes pd mothers chws blocked cap).routes.get
        ⟨i, h1⟩).km = round2 0) := by
  obtain ⟨pathss, hplen, hroutes, -, -, -, -, hidx⟩ :=
    greedy_spec pd mothers chws blocked cap
  have h3 : i < pathss.length := hplen ▸ h2
  have hget := get_zipWith_routeOf (blocked.map normEdge) pd chws pathss _
    hroutes i h1 h2 h3
  refine ⟨by rw [hget]; rfl, ?_⟩
  intro hneg
  obtain ⟨-, hblen⟩ := hidx i h2 h3
  have hz : (intTrunc (chws.get ⟨i, h2⟩).max_visits_day).toNat = 0 :=
    Int.toNat_of_nonpos hneg
  have hnil : pathss.get ⟨i, h3⟩ = [] := by
    rw [hz] at hblen
    exact List.length_eq_zero.mp (Nat.le_zero.mp hblen)
  rw [hget, hnil]
  exact ⟨rfl, rfl⟩

/-- Witness for the amended C7 at a concrete CHW with capacity -3. -/
theorem claim_C7_amended_witness :
    ∃ (h1 : 0 < (greedy_assign_routes (fun _ _ => 0)
        [⟨"m1", 0, 0, "ROUTINE"⟩]
        [⟨"c1", "Ana", 0, 0, -3⟩] [] 6).routes.length)
      (h2 : 0 < ([⟨"c1", "Ana", 0, 0, -3⟩] : List CHW).length),
      ((((greedy_assign_routes (fun _ _ => 0) [⟨"m1", 0, 0, "ROUTINE"⟩]
          [⟨"c1", "Ana", 0, 0, -3⟩] [] 6).routes.get ⟨0, h1⟩).capacity =
        intTrunc ((([⟨"c1", "Ana", 0, 0, -3⟩] : List CHW).get
          ⟨0, h2⟩).max_visits_day)) ∧
      (intTrunc ((([⟨"c1", "Ana", 0, 0, -3⟩] : List CHW).get
          ⟨0, h2⟩).max_visits_day) ≤ 0 →
        (((greedy_assign_routes (fun _ _ => 0) [⟨"m1", 0, 0, "ROUTINE"⟩]
          [⟨"c1", "Ana", 0, 0, -3⟩] [] 6).routes.get
            ⟨0, h1⟩).sequence = ["DEPOT"]) ∧
        (((greedy_assign_routes (fun _ _ => 0) [⟨"m1", 0, 0, "ROUTINE"⟩]
          [⟨"c1", "Ana", 0, 0, -3⟩] [] 6).routes.get
            ⟨0, h1⟩).km = round2 0))) := by
  refine ⟨by with_unfolding_all decide, by decide, ?_⟩
  exact claim_C7_amended (fun _ _ => 0) [⟨"m1", 0, 0, "ROUTINE"⟩]
    [⟨"c1", "Ana", 0, 0, -3⟩] [] 6 0 (by with_unfolding_all decide)
    (by decide)

theorem selectBestAuxE_cons (gd : ℚ × ℚ → ℚ × ℚ → ℚ)
    (blk : List (String × String)) (curId : String) (curPos : ℚ × ℚ)
    (m : Mother) (rest : List Mother) (acc : Option (Mother × ℚ)) :
    selectBestAuxE gd blk curId curPos (m :: rest) acc =
      (match pairwise_distance gd curPos (m.lat, m.lng) with
       | Except.error e => Except.error e
       | Except.ok d0 =>
         selectBestAuxE gd blk curId curPos rest
           (match acc with
            | none =>
              some (m, if isBlocked blk curId m.id then d0 + 1000000 else d0)
            | some (b, bd) =>
              if (if isBlocked blk curId m.id then d0 + 1000000 else d0) < bd
              then some (m,
                if isBlocked blk curId m.id then d0 + 1000000 else d0)
              else some (b, bd))) := rfl

theorem pairwise_distance_ok_valid (gd : ℚ × ℚ → ℚ × ℚ → ℚ) (a b : ℚ × ℚ)
    (d : ℚ) (h : pairwise_distance gd a b = Except.ok d) :
    validCoord a ∧ validCoord b := by
  by_cases hv : validCoord a ∧ validCoord b
  · exact hv
  · rw [pairwise_distance, if_neg hv] at h
    exact absurd h (by simp)

theorem selectBestAuxE_error (gd : ℚ × ℚ → ℚ × ℚ → ℚ)
    (blk : List (String × String)) (curId : String) (curPos : ℚ × ℚ) :
    ∀ (ms : List Mother) (acc : Option (Mother × ℚ)),
      (∃ m ∈ ms, ¬ validCoord (m.lat, m.lng)) →
      ∃ e, selectBestAuxE gd blk curId curPos ms acc = Except.error e := by
  intro ms
  induction ms with
  | nil =>
    intro acc h
    obtain ⟨m, hm, -⟩ := h
    exact absurd hm (List.not_mem_nil m)
  | cons m rest ih =>
    intro acc h
    cases hp : pairwise_distance gd curPos (m.lat, m.lng) with
    | error e =>
      refine ⟨e, ?_⟩
      rw [selectBestAuxE_cons, hp]
    | ok d0 =>
      have hvm : validCoord (m.lat, m.lng) :=
        (pairwise_distance_ok_valid gd curPos (m.lat, m.lng) d0 hp).2
      obtain ⟨m0, hm0, hv0⟩ := h
      rcases List.mem_cons.mp hm0 with rfl | hm0r
      · exact absurd hvm hv0
      · obtain ⟨e, he⟩ := ih
          (match acc with
           | none =>
             some (m, if isBlocked blk curId m.id then d0 + 1000000 else d0)
           | some (b, bd) =>
             if (if isBlocked blk curId m.id then d0 + 1000000 else d0) < bd
             then some (m,
               if isBlocked blk curId m.id then d0 + 1000000 else d0)
             else some (b, bd)) ⟨m0, hm0r, hv0⟩
        refine ⟨e, ?_⟩
        rw [selectBestAuxE_cons, hp]
        exact he

theorem chwLoopE_succ (gd : ℚ × ℚ → ℚ × ℚ → ℚ)
    (blk : List (String × String)) (allSorted : List Mother) (k : ℕ)
    (curId : String) (curPos : ℚ × ℚ) (uns seq : List String) (dist : ℚ) :
    chwLoopE gd blk allSorted (k + 1) curId curPos uns seq dist =
      (if (localUnserved allSorted uns).isEmpty then
        Except.ok (seq, dist, uns)
       else
         match selectBestAuxE gd blk curId curPos
             (localUnserved allSorted uns) none with
         | Except.error e => Except.error e
         | Except.ok none => Except.ok (seq, dist, uns)
         | Except.ok (some (best, bestD)) =>
           if 100000 < bestD then Except.ok (seq, dist, uns)
           else
             chwLoopE gd blk allSorted k best.id (best.lat, best.lng)
               (uns.erase best.id) (seq ++ [best.id]) (dist + bestD)) := rfl

theorem chwLoopE_error (gd : ℚ × ℚ → ℚ × ℚ → ℚ)
    (blk : List (String × String)) (allSorted : List Mother) (k : ℕ)
    (curId : String) (curPos : ℚ × ℚ) (uns seq : List String) (dist : ℚ)
    (m : Mother) (hm : m ∈ allSorted) (hid : m.id ∈ uns)
    (hv : ¬ validCoord (m.lat, m.lng)) :
    ∃ e, chwLoopE gd blk allSorted (k + 1) curId curPos uns seq dist =
      Except.error e := by
  have hmem : m ∈ localUnserved allSorted uns :=
    (mem_localUnserved allSorted uns m).mpr ⟨hm, hid⟩
  have hne : (localUnserved allSorted uns).isEmpty = false := by
    cases hloc : localUnserved allSorted uns with
    | nil =>
      rw [hloc] at hmem
      exact absurd hmem (List.not_mem_nil m)
    | cons a l => rfl
  obtain ⟨e, he⟩ := selectBestAuxE_error gd blk curId curPos
    (localUnserved allSorted uns) none ⟨m, hmem, hv⟩
  refine ⟨e, ?_⟩
  rw [chwLoopE_succ, hne]
  simp only [Bool.false_eq_true, if_false, he]

theorem runCHWE_def (gd : ℚ × ℚ → ℚ × ℚ → ℚ)
    (blk : List (String × String)) (allSorted : List Mother) (chw : CHW)
    (uns : List String) :
    runCHWE gd blk allSorted chw uns =
      (match chwLoopE gd blk allSorted (intTrunc chw.max_visits_day).toNat
          "DEPOT" (chw.base_lat, chw.base_lng) uns ["DEPOT"] 0 with
       | Except.error e => Except.error e
       | Except.ok res =>
         Except.ok
           (⟨chw.id, chw.name, res.1, round2 res.2.1,
             intTrunc chw.max_visits_day⟩, res.2.2)) := rfl

theorem runCHWE_error (gd : ℚ × ℚ → ℚ × ℚ → ℚ)
    (blk : List (String × String)) (allSorted : List Mother) (chw : CHW)
    (uns : List String) (hcap : 1 ≤ intTrunc chw.max_visits_day)
    (m : Mother) (hm : m ∈ allSorted) (hid : m.id ∈ uns)
    (hv : ¬ validCoord (m.lat, m.lng)) :
    ∃ e, runCHWE gd blk allSorted chw uns = Except.error e := by
  obtain ⟨k, hk⟩ : ∃ k, (intTrunc chw.max_visits_day).toNat = k + 1 := by
    refine ⟨(intTrunc chw.max_visits_day).toNat - 1, ?_⟩
    omega
  obtain ⟨e, he⟩ := chwLoopE_error gd blk allSorted k "DEPOT"
    (chw.base_lat, chw.base_lng) uns ["DEPOT"] 0 m hm hid hv
  refine ⟨e, ?_⟩
  rw [runCHWE_def, hk, he]

theorem runCHWE_nonpos (gd : ℚ × ℚ → ℚ × ℚ → ℚ)
    (blk : List (String × String)) (allSorted : List Mother) (chw : CHW)
    (uns : List String) (hcap : intTrunc chw.max_visits_day ≤ 0) :
    runCHWE gd blk allSorted chw uns =
      Except.ok (⟨chw.id, chw.name, ["DEPOT"], round2 0,
        intTrunc chw.max_visits_day⟩, uns) := by
  have hz : (intTrunc chw.max_visits_day).toNat = 0 :=
    Int.toNat_of_nonpos hcap
  rw [runCHWE_def, hz]
  rfl

theorem runCHWsE_cons (gd : ℚ × ℚ → ℚ × ℚ → ℚ)
    (blk : List (String × String)) (allSorted : List Mother) (chw : CHW)
    (rest : List CHW) (uns : List String) :
    runCHWsE gd blk allSorted (chw :: rest) uns =
      (match runCHWE gd blk allSorted chw uns with
       | Except.error e => Except.error e
       | Except.ok r =>
         match runCHWsE gd blk allSorted rest r.2 with
         | Except.error e => Except.error e
         | Except.ok rs => Except.ok (r.1 :: rs.1, rs.2)) := rfl

theorem runCHWsE_error (gd : ℚ × ℚ → ℚ × ℚ → ℚ)
    (blk : List (String × String)) (allSorted : List Mother) (m : Mother)
    (hm : m ∈ allSorted) (hv : ¬ validCoord (m.lat, m.lng)) :
    ∀ (chws : List CHW) (uns : List String), m.id ∈ uns →
      (∃ chw ∈ chws, 1 ≤ intTrunc chw.max_visits_day) →
      ∃ e, runCHWsE gd blk allSorted chws uns = Except.error e := by
  intro chws
  induction chws with
  | nil =>
    intro uns _ hex
    obtain ⟨chw, hchw, -⟩ := hex
    exact absurd hchw (List.not_mem_nil chw)
  | cons c rest ih =>
    intro uns hid hex
    by_cases hc : 1 ≤ intTrunc c.max_visits_day
    · obtain ⟨e, he⟩ := runCHWE_error gd blk allSorted c uns hc m hm hid hv
      refine ⟨e, ?_⟩
      rw [runCHWsE_cons, he]
    · have hc0 : intTrunc c.max_visits_day ≤ 0 := by omega
      obtain ⟨cw, hcw, hcwcap⟩ := hex
      rcases List.mem_cons.mp hcw with rfl | hcwr
      · exact absurd hcwcap hc
      · obtain ⟨e, he⟩ := ih uns hid ⟨cw, hcwr, hcwcap⟩
        refine ⟨e, ?_⟩
        rw [runCHWsE_cons, runCHWE_nonpos gd blk allSorted c uns hc0]
        dsimp only
        rw [he]

theorem greedyE_def (gd : ℚ × ℚ → ℚ × ℚ → ℚ) (mothers : List Mother)
    (chws : List CHW) (blocked : List (String × String)) (cap : ℚ) :
    greedy_assign_routesE gd mothers chws blocked cap =
      (match runCHWsE gd (blocked.map normEdge) (sortMothers mothers) chws
          ((mothers.map (fun m => m.id)).dedup) with
       | Except.error e => Except.error e
       | Except.ok res =>
         Except.ok ⟨res.1,
           List.insertionSort (fun a b => strLe a b = true) res.2⟩) := rfl

/-- C8: the distance primitive fails with an error whenever either
coordinate of a pair is out of the valid ±90°/±180° range, and that error
propagates: whenever the input contains a mother with invalid coordinates
and any CHW with positive capacity (so that her distance is computed), the
whole planning call returns an error instead of a plan. -/
theorem claim_C8_geometry_error_aborts :
    (∀ (gd : ℚ × ℚ → ℚ × ℚ → ℚ) (a b : ℚ × ℚ),
      ¬ (validCoord a ∧ validCoord b) →
      pairwise_distance gd a b =
        Except.error "GeometryError: invalid coordinates") ∧
    (∀ (gd : ℚ × ℚ → ℚ × ℚ → ℚ) (mothers : List Mother) (chws : List CHW)
        (blocked : List (String × String)) (cap : ℚ) (m : Mother),
      m ∈ mothers → ¬ validCoord (m.lat, m.lng) →
      (∃ chw ∈ chws, 1 ≤ intTrunc chw.max_visits_day) →
      ∃ e, greedy_assign_routesE gd mothers chws blocked cap =
        Except.error e) := by
  constructor
  · intro gd a b h
    rw [pairwise_distance, if_neg h]
  · intro gd mothers chws blocked cap m hm hv hex
    have hms : m ∈ sortMothers mothers :=
      (List.perm_insertionSort _ mothers).mem_iff.mpr hm
    have hid : m.id ∈ (mothers.map (fun m => m.id)).dedup :=
      List.mem_dedup.mpr (List.mem_map_of_mem _ hm)
    obtain ⟨e, he⟩ := runCHWsE_error gd (blocked.map normEdge)
      (sortMothers mothers) m hms hv chws
      ((mothers.map (fun m => m.id)).dedup) hid hex
    refine ⟨e, ?_⟩
    rw [greedyE_def, he]

/-- Witness for C8: a latitude of 100° makes the distance primitive fail,
and a plan over a mother at latitude 100° with one unit-capacity CHW
aborts with an error. -/
theorem claim_C8_geometry_error_aborts_witness :
    (pairwise_distance (fun _ _ => 0) (100, 0) (0, 0) =
      Except.error "GeometryError: invalid coordinates") ∧
    (∃ e, greedy_assign_routesE (fun _ _ => 0) [⟨"mb", 100, 0, "ROUTINE"⟩]
        [⟨"c1", "Ana", 0, 0, 1⟩] [] 6 = Except.error e) := by
  constructor
  · exact claim_C8_geometry_error_aborts.1 (fun _ _ => 0) (100, 0) (0, 0)
      (by with_unfolding_all decide)
  · exact claim_C8_geometry_error_aborts.2 (fun _ _ => 0)
      [⟨"mb", 100, 0, "ROUTINE"⟩] [⟨"c1", "Ana", 0, 0, 1⟩] [] 6
      ⟨"mb", 100, 0, "ROUTINE"⟩ (by simp) (by with_unfolding_all decide)
      ⟨⟨"c1", "Ana", 0, 0, 1⟩, by simp, by with_unfolding_all decide⟩
